import Mathlib

/-!
Verification development for the hardsub-OCR pipeline
(sampling → batching → reconciliation), shallowly embedded from
`src/App.tsx` and `src/services/geminiService.ts`.

Times (seconds) are embedded as rationals; JS strings as Lean strings,
with `trim`/`toLowerCase` modelled over the character sequence.
-/

namespace VideoOCR

/-- Model of JS `String.prototype.trim` (App.tsx `sub.text.trim()`):
drop leading and trailing whitespace of the character sequence. -/
def jsTrim (s : String) : String :=
  ⟨((s.data.dropWhile Char.isWhitespace).reverse.dropWhile Char.isWhitespace).reverse⟩

/-- Model of JS `String.prototype.toLowerCase` (App.tsx `.toLowerCase()`):
lower-case every character. -/
def jsToLowerCase (s : String) : String :=
  ⟨s.data.map Char.toLower⟩

/-- The normalization applied by the reconciliation loop before comparing
texts: `text.trim().toLowerCase()` (App.tsx line 136). -/
def normText (s : String) : String :=
  jsToLowerCase (jsTrim s)

/-- `SubtitleEntry` from `src/types.ts`: id, startTime, endTime, text. -/
structure SubtitleEntry where
  id : String
  startTime : ℚ
  endTime : ℚ
  text : String
deriving DecidableEq

/-- One step of the `sorted.forEach` reconciliation loop (App.tsx 134-141).
The accumulator is kept reversed, so its head is the `last` accepted entry
(`finalSubs[finalSubs.length - 1]`); the in-place mutation
`last.endTime = Math.max(last.endTime, sub.endTime)` becomes a head update. -/
def insertCand (acc : List SubtitleEntry) (sub : SubtitleEntry) : List SubtitleEntry :=
  match acc with
  | last :: rest =>
    if normText sub.text = normText last.text ∧ sub.startTime ≤ last.endTime + 3/10 then
      { last with endTime := max last.endTime sub.endTime } :: rest
    else if 0 < (jsTrim sub.text).length then
      sub :: last :: rest
    else
      last :: rest
  | [] =>
    if 0 < (jsTrim sub.text).length then [sub] else []

/-- Comparison used by `allSubs.sort((a, b) => a.startTime - b.startTime)`
(App.tsx line 132). -/
def startLE (a b : SubtitleEntry) : Prop :=
  a.startTime ≤ b.startTime

instance : DecidableRel startLE :=
  fun a b => inferInstanceAs (Decidable (a.startTime ≤ b.startTime))

instance : IsTotal SubtitleEntry startLE :=
  ⟨fun a b => le_total a.startTime b.startTime⟩

instance : IsTrans SubtitleEntry startLE :=
  ⟨fun _ _ _ h h' => le_trans h h'⟩

/-- Model of `allSubs.sort((a, b) => a.startTime - b.startTime)`:
`Array.prototype.sort` is a stable sort, so it is extensionally the stable
insertion sort by `startTime`. -/
def sortByStart (l : List SubtitleEntry) : List SubtitleEntry :=
  List.insertionSort startLE l

/-- The Timeline Reconciler (App.tsx 131-141): sort candidates by start
time, then fold the merge step over them; the accumulator is reversed back
at the end since `insertCand` builds it newest-first. -/
def reconcile (allSubs : List SubtitleEntry) : List SubtitleEntry :=
  ((sortByStart allSubs).foldl insertCand []).reverse

/-- The sampling timestamps of the `while (current <= timeRange.end)` loop
(App.tsx 105-112): `start, start+step, …` while the value stays `≤ end`.
The loop in the source never runs with a non-positive step (the step is the
constant `0.5`); the `0 < step` guard totalizes the definition. -/
def sampleTimestamps (cur fin step : ℚ) : List ℚ :=
  if h : 0 < step ∧ cur ≤ fin then
    cur :: sampleTimestamps (cur + step) fin step
  else []
termination_by (⌊(fin - cur) / step⌋ + 1).toNat
decreasing_by
  have hstep : 0 < step := h.1
  have hle : cur ≤ fin := h.2
  have hrw : (fin - (cur + step)) / step = (fin - cur) / step - 1 := by
    field_simp
    ring
  have hfl : ⌊(fin - (cur + step)) / step⌋ = ⌊(fin - cur) / step⌋ - 1 := by
    rw [hrw, Int.floor_sub_one]
  have hnn : 0 ≤ ⌊(fin - cur) / step⌋ := by
    apply Int.floor_nonneg.mpr
    exact div_nonneg (by linarith) (le_of_lt hstep)
  omega

/-- State of the `<video>` element as used by the pipeline: the mutable
`currentTime` and the fixed `duration`. -/
structure VideoState where
  currentTime : ℚ
  duration : ℚ
deriving DecidableEq

/-- A sampled frame `{ data, timestamp }` pushed into `framesToProcess`
(App.tsx 107). -/
structure Frame where
  data : String
  timestamp : ℚ
deriving DecidableEq

/-- `captureFrame` (App.tsx 54-83): seeks the video with
`video.currentTime = Math.min(time, video.duration)` and resolves with the
image painted at the seeked position. `paint` abstracts the canvas
`drawImage`/`toDataURL` of the crop rectangle as a function of the position
the video is seeked to. -/
def captureFrame (paint : ℚ → String) (v : VideoState) (t : ℚ) : VideoState × String :=
  let v' : VideoState := { v with currentTime := min t v.duration }
  (v', paint v'.currentTime)

/-- The frame-extraction loop of `startOCR` (App.tsx 105-112) with the
hard-coded `step = 0.5`: capture a frame at each timestamp, recording the
requested (unclamped) timestamp alongside the captured data. -/
def sampleFrames (paint : ℚ → String) (v : VideoState) (cur fin : ℚ) :
    VideoState × List Frame :=
  if cur ≤ fin then
    let cap := captureFrame paint v cur
    let rest := sampleFrames paint cap.1 (cur + 1/2) fin
    (rest.1, ⟨cap.2, cur⟩ :: rest.2)
  else (v, [])
termination_by (⌊(fin - cur) * 2⌋ + 1).toNat
decreasing_by
  have hrw : (fin - (cur + 1/2)) * 2 = (fin - cur) * 2 - 1 := by ring
  have hfl : ⌊(fin - (cur + 1/2)) * 2⌋ = ⌊(fin - cur) * 2⌋ - 1 := by
    rw [hrw, Int.floor_sub_one]
  have hnn : 0 ≤ ⌊(fin - cur) * 2⌋ := by
    apply Int.floor_nonneg.mpr
    have : 0 ≤ fin - cur := by linarith
    positivity
  omega

/-- A raw row of the JSON array returned by the service, as consumed by
`results.map` in `geminiService.ts` 76-81. -/
structure RawSub where
  text : String
  startTime : ℚ
  endTime : ℚ
deriving DecidableEq

/-- Observable outcome of one `generateContent` call, as consumed by
`processFrames` (geminiService.ts 50-81): the awaited call may throw
(`throwsErr`); otherwise `response.text` may be absent or the empty string
(JS-falsy, replaced by the literal `"[]"`), may fail `JSON.parse`
(`unparsable`), may parse to a non-array (whose missing `.map` raises a
TypeError), or may parse to an array of rows. -/
inductive SvcOutcome where
  | throwsErr
  | emptyText
  | unparsable
  | nonArray
  | rows (rs : List RawSub)
deriving DecidableEq

/-- Errors thrown out of `processFrames`: the missing-API-key error
(geminiService.ts 33-35), a service/network error rethrown by the catch
block, or a data error (JSON.parse / `.map` TypeError) rethrown by the
same catch block. -/
inductive OcrError where
  | missingKey
  | service
  | malformed
deriving DecidableEq

/-- Deterministic stand-in for the fresh id
`sub-${Date.now()}-${idx}-${random}` generated per row
(geminiService.ts 77); no pipeline logic inspects the id. -/
def mkSubId (idx : ℕ) : String :=
  "sub-" ++ toString idx

/-- `GeminiOCRService.processFrames` (geminiService.ts 29-88): throws when
the API key is missing (before any request is issued), otherwise issues one
request and converts its outcome; every exception inside the try block is
rethrown by the catch block. The Bool records whether a request was issued.
The environment variable is a string, with the empty string standing for an
absent `process.env.API_KEY` (both are JS-falsy). -/
def processFrames (apiKey : String) (respond : List Frame → SvcOutcome)
    (frames : List Frame) : Except OcrError (List SubtitleEntry) × Bool :=
  if apiKey = "" then (.error .missingKey, false)
  else
    match respond frames with
    | .throwsErr => (.error .service, true)
    | .emptyText => (.ok [], true)
    | .unparsable => (.error .malformed, true)
    | .nonArray => (.error .malformed, true)
    | .rows rs =>
      (.ok ((rs.enum).map fun p => ⟨mkSubId p.1, p.2.startTime, p.2.endTime, p.2.text⟩), true)

/-- The batch-dispatch loop of `startOCR` (App.tsx 119-129):
`for (let i = 0; i < frames.length; i += 10)` submits `frames.slice(i, i+10)`
to the service, appending each batch's results; the first exception aborts
the loop. Also counts the requests actually issued. -/
def dispatchLoop (svc : List Frame → Except OcrError (List SubtitleEntry) × Bool)
    (frames : List Frame) (i : ℕ) (acc : List SubtitleEntry) (sent : ℕ) :
    Except OcrError (List SubtitleEntry) × ℕ :=
  if h : i < frames.length then
    match svc ((frames.drop i).take 10) with
    | (.error e, b) => (.error e, sent + (if b then 1 else 0))
    | (.ok rs, b) => dispatchLoop svc frames (i + 10) (acc ++ rs) (sent + (if b then 1 else 0))
  else (.ok acc, sent)
termination_by frames.length - i
decreasing_by omega

/-- `OCRProcessState` from `src/types.ts`. -/
structure OCRProcessState where
  isProcessing : Bool
  progress : ℚ
  currentStep : String
deriving DecidableEq

/-- The component state touched by `startOCR`: the caller-visible subtitle
list, the process-state tracker, and the video element. -/
structure AppState where
  subtitles : List SubtitleEntry
  processState : OCRProcessState
  video : VideoState
deriving DecidableEq

/-- Ghost observations of one run: the frames captured by the sampling loop
and the number of requests issued to the recognition service. -/
structure RunTrace where
  framesSampled : List Frame
  requestsSent : ℕ
deriving DecidableEq

/-- The terminal tracker value of a successful run (App.tsx 146). -/
def doneState : OCRProcessState :=
  ⟨false, 100, "Process Complete."⟩

/-- The terminal tracker value of a failed run (App.tsx 150). -/
def failedState : OCRProcessState :=
  ⟨false, 0, "Failed."⟩

/-- `startOCR` (App.tsx 85-152): record the original playback position,
sample frames over the time range, dispatch them in batches of 10, then
reconcile. On success the subtitle list is replaced, the playback position
is restored and the tracker ends in `doneState`; any exception reaches the
catch block, which only sets `failedState` (the subtitle list and the
playback position are left as they are). Intermediate progress updates,
overwritten before the run ends, are elided. -/
def startOCR (paint : ℚ → String) (apiKey : String) (respond : List Frame → SvcOutcome)
    (timeRange : ℚ × ℚ) (st : AppState) : AppState × RunTrace :=
  let originalTime := st.video.currentTime
  let sampled := sampleFrames paint st.video timeRange.1 timeRange.2
  let frames := sampled.2
  match dispatchLoop (processFrames apiKey respond) frames 0 [] 0 with
  | (.error _, sent) =>
    ({ st with processState := failedState, video := sampled.1 }, ⟨frames, sent⟩)
  | (.ok allSubs, sent) =>
    ({ subtitles := reconcile allSubs,
       processState := doneState,
       video := { sampled.1 with currentTime := originalTime } }, ⟨frames, sent⟩)

/-- An entry whose trimmed text is nonempty — the `sub.text.trim().length > 0`
test of App.tsx line 138. -/
def trimmedNonempty (e : SubtitleEntry) : Prop :=
  0 < (jsTrim e.text).length

/-- Negation of the merge condition of App.tsx line 136, between a
last-accepted entry `a` and a later candidate `b`. -/
def noMerge (a b : SubtitleEntry) : Prop :=
  ¬(normText b.text = normText a.text ∧ b.startTime ≤ a.endTime + 3/10)

/-- Relation between consecutive entries of the reversed accumulator built
by `insertCand` (head is the newest entry). -/
def revRel (a b : SubtitleEntry) : Prop :=
  noMerge b a ∧ b.startTime ≤ a.startTime

/-- A constant paint function for concrete runs. -/
def paint0 : ℚ → String := fun _ => "img"

/-- A concrete pre-run component state: no subtitles, idle tracker, video
positioned at 7s with a 10s duration. -/
def st0 : AppState := ⟨[], ⟨false, 0, "idle"⟩, ⟨7, 10⟩⟩

/-- A recognition service whose every call throws. -/
def respondErr : List Frame → SvcOutcome := fun _ => .throwsErr

/-- A recognition service whose every response carries an absent/empty
text field. -/
def respondEmpty : List Frame → SvcOutcome := fun _ => .emptyText

/-- A recognition service that always returns an empty JSON array. -/
def respondRows0 : List Frame → SvcOutcome := fun _ => .rows []

/-- A recognition service whose every response fails JSON parsing. -/
def respondUnparsable : List Frame → SvcOutcome := fun _ => .unparsable

theorem jsToLowerCase_length (s : String) : (jsToLowerCase s).length = s.length := by
  have h1 : (jsToLowerCase s).length = (s.data.map Char.toLower).length := rfl
  have h2 : s.length = s.data.length := rfl
  rw [h1, h2, List.length_map]

theorem normText_length (s : String) : (normText s).length = (jsTrim s).length :=
  jsToLowerCase_length (jsTrim s)

theorem normText_ne_of_lengths {s t : String}
    (hs : (jsTrim s).length = 0) (ht : 0 < (jsTrim t).length) :
    normText s ≠ normText t := by
  intro h
  have hlen := congrArg String.length h
  rw [normText_length, normText_length, hs] at hlen
  omega

theorem insertCand_merge {last sub : SubtitleEntry} {rest : List SubtitleEntry}
    (h : normText sub.text = normText last.text ∧ sub.startTime ≤ last.endTime + 3/10) :
    insertCand (last :: rest) sub
      = { last with endTime := max last.endTime sub.endTime } :: rest := by
  simp [insertCand, h]

theorem insertCand_push {last sub : SubtitleEntry} {rest : List SubtitleEntry}
    (hne : ¬(normText sub.text = normText last.text ∧ sub.startTime ≤ last.endTime + 3/10))
    (ht : 0 < (jsTrim sub.text).length) :
    insertCand (last :: rest) sub = sub :: last :: rest := by
  simp [insertCand, hne, ht]

theorem insertCand_dropped {last sub : SubtitleEntry} {rest : List SubtitleEntry}
    (hne : ¬(normText sub.text = normText last.text ∧ sub.startTime ≤ last.endTime + 3/10))
    (ht : (jsTrim sub.text).length = 0) :
    insertCand (last :: rest) sub = last :: rest := by
  simp [insertCand, hne, ht]

theorem insertCand_nil_push {sub : SubtitleEntry} (ht : 0 < (jsTrim sub.text).length) :
    insertCand [] sub = [sub] := by
  simp [insertCand, ht]

theorem insertCand_nil_drop {sub : SubtitleEntry} (ht : (jsTrim sub.text).length = 0) :
    insertCand [] sub = [] := by
  simp [insertCand, ht]

theorem foldl_insertCand_inv (l : List SubtitleEntry) :
    ∀ acc : List SubtitleEntry,
      List.Pairwise startLE l →
      (∀ e ∈ acc, trimmedNonempty e) →
      List.Chain' revRel acc →
      (∀ a ∈ acc.head?, ∀ p ∈ l, a.startTime ≤ p.startTime) →
      (∀ e ∈ l.foldl insertCand acc, trimmedNonempty e) ∧
        List.Chain' revRel (l.foldl insertCand acc) := by
  induction l with
  | nil =>
    intro acc _ hTN hCh _
    exact ⟨hTN, hCh⟩
  | cons b t ih =>
    intro acc hp hTN hCh hBd
    have hp2 : List.Pairwise startLE t := (List.pairwise_cons.mp hp).2
    have hbt : ∀ p ∈ t, b.startTime ≤ p.startTime := fun p hpm =>
      (List.pairwise_cons.mp hp).1 p hpm
    rw [List.foldl_cons]
    match acc with
    | [] =>
      by_cases htn : 0 < (jsTrim b.text).length
      · rw [insertCand_nil_push htn]
        refine ih [b] hp2 ?_ (List.chain'_singleton b) ?_
        · intro e he
          rw [List.mem_singleton] at he
          subst he
          exact htn
        · intro a ha p hpm
          simp at ha
          subst ha
          exact hbt p hpm
      · rw [insertCand_nil_drop (by omega)]
        exact ih [] hp2 (by simp) (by simp) (by simp)
    | a :: rest =>
      have hab : a.startTime ≤ b.startTime := hBd a (by simp) b (by simp)
      have hat : ∀ p ∈ t, a.startTime ≤ p.startTime := fun p hpm =>
        hBd a (by simp) p (by simp [hpm])
      by_cases hcond : normText b.text = normText a.text ∧ b.startTime ≤ a.endTime + 3/10
      · rw [insertCand_merge hcond]
        refine ih _ hp2 ?_ ?_ ?_
        · intro e he
          rcases List.mem_cons.mp he with rfl | hmem
          · exact hTN a (by simp)
          · exact hTN e (by simp [hmem])
        · match rest, hCh with
          | [], _ => exact List.chain'_singleton _
          | r :: rs, hCh =>
            have h2 := List.chain'_cons.mp hCh
            exact List.chain'_cons.mpr ⟨⟨h2.1.1, h2.1.2⟩, h2.2⟩
        · intro x hx p hpm
          simp at hx
          subst hx
          exact hat p hpm
      · by_cases htn : 0 < (jsTrim b.text).length
        · rw [insertCand_push hcond htn]
          refine ih _ hp2 ?_ ?_ ?_
          · intro e he
            rcases List.mem_cons.mp he with rfl | hmem
            · exact htn
            · exact hTN e hmem
          · exact List.chain'_cons.mpr ⟨⟨hcond, hab⟩, hCh⟩
          · intro x hx p hpm
            simp at hx
            subst hx
            exact hbt p hpm
        · rw [insertCand_dropped hcond (by omega)]
          refine ih _ hp2 hTN hCh ?_
          intro x hx p hpm
          exact hBd x hx p (by simp [hpm])

theorem reconcile_inv (xs : List SubtitleEntry) :
    (∀ e ∈ reconcile xs, trimmedNonempty e) ∧
      List.Chain' (fun a b => noMerge a b ∧ startLE a b) (reconcile xs) := by
  have hs : List.Pairwise startLE (sortByStart xs) :=
    List.sorted_insertionSort startLE xs
  have h := foldl_insertCand_inv (sortByStart xs) [] hs (by simp) (by simp) (by simp)
  constructor
  · intro e he
    rw [reconcile, List.mem_reverse] at he
    exact h.1 e he
  · have hrev : List.Chain' (flip fun a b => noMerge a b ∧ startLE a b)
        ((sortByStart xs).foldl insertCand []) := by
      refine List.Chain'.imp ?_ h.2
      intro a b hr
      exact ⟨hr.1, hr.2⟩
    rw [reconcile]
    exact List.chain'_reverse.mpr hrev

theorem foldl_insertCand_replay (l : List SubtitleEntry) :
    ∀ acc : List SubtitleEntry,
      (∀ e ∈ l, trimmedNonempty e) →
      List.Chain' noMerge (acc.reverse ++ l) →
      l.foldl insertCand acc = l.reverse ++ acc := by
  induction l with
  | nil =>
    intro acc _ _
    simp
  | cons b t ih =>
    intro acc hTN hCh
    have htn : 0 < (jsTrim b.text).length := hTN b (by simp)
    have hstep : insertCand acc b = b :: acc := by
      match acc with
      | [] => exact insertCand_nil_push htn
      | a :: rest =>
        have hnm : noMerge a b := by
          refine (List.chain'_append.mp hCh).2.2 a ?_ b ?_
          · rw [List.getLast?_reverse]
            simp
          · simp
        exact insertCand_push hnm htn
    rw [List.foldl_cons, hstep]
    have hCh2 : List.Chain' noMerge ((b :: acc).reverse ++ t) := by
      rw [List.reverse_cons, List.append_assoc]
      simpa using hCh
    rw [ih (b :: acc) (fun e he => hTN e (by simp [he])) hCh2]
    simp

theorem normText_Hi_eval : normText "Hi" = "hi" := by decide

theorem normText_hisp_eval : normText "hi " = "hi" := by decide

theorem normText_blank_eval : normText "   " = "" := by decide

theorem trim_Hi_eval : (jsTrim "Hi").length = 2 := by decide

theorem trim_hisp_eval : (jsTrim "hi ").length = 2 := by decide

theorem trim_blank_eval : (jsTrim "   ").length = 0 := by decide

theorem str_empty_ne_hi : ("" : String) ≠ "hi" := by decide

theorem reconcile_far_eval :
    reconcile [⟨"a", 1, 7/5, "Hi"⟩, ⟨"b", 2, 12/5, "Hi"⟩]
      = [⟨"a", 1, 7/5, "Hi"⟩, ⟨"b", 2, 12/5, "Hi"⟩] := by
  norm_num [reconcile, sortByStart, List.insertionSort, List.orderedInsert,
    startLE, insertCand, normText_Hi_eval, trim_Hi_eval]

/-- C1: in reconciliation, a candidate with nonempty trimmed text merges
into the last accepted entry exactly when its normalized text matches and
its start time is within 0.3s of the last entry's end; merging extends only
the end time (to the max), keeping start time and original text; the two
spec examples reconcile as stated. -/
theorem c1_merge_characterization :
    (∀ (last : SubtitleEntry) (rest : List SubtitleEntry) (sub : SubtitleEntry),
      0 < (jsTrim sub.text).length →
      (insertCand (last :: rest) sub
          = { last with endTime := max last.endTime sub.endTime } :: rest
        ↔ (normText sub.text = normText last.text
            ∧ sub.startTime ≤ last.endTime + 3/10)))
    ∧ reconcile [⟨"a", 1, 7/5, "Hi"⟩, ⟨"b", 3/2, 2, "hi "⟩] = [⟨"a", 1, 2, "Hi"⟩]
    ∧ reconcile [⟨"a", 1, 7/5, "Hi"⟩, ⟨"b", 2, 12/5, "Hi"⟩]
        = [⟨"a", 1, 7/5, "Hi"⟩, ⟨"b", 2, 12/5, "Hi"⟩] := by
  refine ⟨?_, ?_, ?_⟩
  · intro last rest sub htn
    constructor
    · intro heq
      by_contra hcond
      rw [insertCand_push hcond htn] at heq
      have hl := congrArg List.length heq
      simp at hl
    · intro hcond
      exact insertCand_merge hcond
  · have hm : ((7:ℚ)/5) ⊔ 2 = 2 := by
      rw [max_eq_right]
      norm_num
    norm_num [reconcile, sortByStart, List.insertionSort, List.orderedInsert,
      startLE, insertCand, normText_Hi_eval, normText_hisp_eval, trim_Hi_eval, hm]
  · exact reconcile_far_eval

/-- C1 witness: the merge characterization applied to the concrete
candidates of the spec example. -/
theorem c1_merge_characterization_witness :
    insertCand [⟨"a", 1, 7/5, "Hi"⟩] ⟨"b", 3/2, 2, "hi "⟩
      = [⟨"a", 1, (7:ℚ)/5 ⊔ 2, "Hi"⟩] :=
  (c1_merge_characterization.1 ⟨"a", 1, 7/5, "Hi"⟩ [] ⟨"b", 3/2, 2, "hi "⟩
    (by decide)).mpr ⟨by decide, by norm_num⟩

/-- C4: the reconcile pass is idempotent — reconciling an already-reconciled
list changes nothing. -/
theorem c4_reconcile_idempotent (xs : List SubtitleEntry) :
    reconcile (reconcile xs) = reconcile xs := by
  have hinv := reconcile_inv xs
  have hch : List.Chain' startLE (reconcile xs) :=
    List.Chain'.imp (fun a b hr => hr.2) hinv.2
  have hsorted : List.Pairwise startLE (reconcile xs) :=
    List.chain'_iff_pairwise.mp hch
  have hsort_eq : sortByStart (reconcile xs) = reconcile xs :=
    List.Sorted.insertionSort_eq hsorted
  have hnm : List.Chain' noMerge (reconcile xs) :=
    List.Chain'.imp (fun a b hr => hr.1) hinv.2
  have hreplay := foldl_insertCand_replay (reconcile xs) [] hinv.1 (by simpa using hnm)
  calc reconcile (reconcile xs)
      = ((sortByStart (reconcile xs)).foldl insertCand []).reverse := rfl
    _ = ((reconcile xs).foldl insertCand []).reverse := by rw [hsort_eq]
    _ = ((reconcile xs).reverse ++ []).reverse := by rw [hreplay]
    _ = reconcile xs := by simp

/-- C6: a candidate whose trimmed text is empty is dropped unconditionally —
it neither merges into an accepted entry (whose trimmed text is always
nonempty) nor is appended, every reconciled entry has nonempty trimmed
text, and the spec's blank-candidate example vanishes from the output. -/
theorem c6_empty_text_dropped :
    (∀ (acc : List SubtitleEntry) (sub : SubtitleEntry),
      (∀ e ∈ acc, trimmedNonempty e) → (jsTrim sub.text).length = 0 →
      insertCand acc sub = acc)
    ∧ (∀ (xs : List SubtitleEntry), ∀ e ∈ reconcile xs, trimmedNonempty e)
    ∧ reconcile [⟨"a", 29/10, 31/10, "Hi"⟩, ⟨"b", 3, 16/5, "   "⟩]
        = [⟨"a", 29/10, 31/10, "Hi"⟩] := by
  refine ⟨?_, ?_, ?_⟩
  · intro acc sub hacc hz
    match acc with
    | [] => exact insertCand_nil_drop hz
    | a :: rest =>
      have hne : ¬(normText sub.text = normText a.text
          ∧ sub.startTime ≤ a.endTime + 3/10) := by
        intro hc
        exact absurd hc.1 (normText_ne_of_lengths hz (hacc a (by simp)))
      exact insertCand_dropped hne hz
  · intro xs e he
    exact (reconcile_inv xs).1 e he
  · norm_num [reconcile, sortByStart, List.insertionSort, List.orderedInsert,
      startLE, insertCand, normText_Hi_eval, normText_blank_eval,
      trim_Hi_eval, trim_blank_eval, str_empty_ne_hi]

/-- C6 witness: the drop rule applied to the spec's blank candidate against
a concrete accepted entry. -/
theorem c6_empty_text_dropped_witness :
    insertCand [⟨"a", 29/10, 31/10, "Hi"⟩] ⟨"b", 3, 16/5, "   "⟩
      = [⟨"a", 29/10, 31/10, "Hi"⟩] := by
  refine c6_empty_text_dropped.1 _ _ ?_ (by decide)
  intro e he
  rw [List.mem_singleton] at he
  subst he
  exact (by decide : (0:ℕ) < (jsTrim "Hi").length)

/-- C7: for every input list, the reconciled output is sorted by start
time — adjacent entries satisfy `startTime i ≤ startTime (i+1)`. -/
theorem c7_output_sorted (xs : List SubtitleEntry) (i : ℕ)
    (h : i + 1 < (reconcile xs).length) :
    ((reconcile xs).get ⟨i, by omega⟩).startTime
      ≤ ((reconcile xs).get ⟨i + 1, h⟩).startTime := by
  have hch : List.Chain' startLE (reconcile xs) :=
    List.Chain'.imp (fun a b hr => hr.2) (reconcile_inv xs).2
  exact List.chain'_iff_get.mp hch i (by omega)

/-- C7 witness: the sort invariant applied to a concrete two-entry
reconciliation. -/
theorem c7_output_sorted_witness :
    ((reconcile [⟨"a", 1, 7/5, "Hi"⟩, ⟨"b", 2, 12/5, "Hi"⟩]).get
        ⟨0, by rw [reconcile_far_eval]; norm_num⟩).startTime
      ≤ ((reconcile [⟨"a", 1, 7/5, "Hi"⟩, ⟨"b", 2, 12/5, "Hi"⟩]).get
        ⟨1, by rw [reconcile_far_eval]; norm_num⟩).startTime :=
  c7_output_sorted [⟨"a", 1, 7/5, "Hi"⟩, ⟨"b", 2, 12/5, "Hi"⟩] 0
    (by rw [reconcile_far_eval]; norm_num)

theorem sampleTimestamps_cons {cur fin step : ℚ} (h1 : 0 < step) (h2 : cur ≤ fin) :
    sampleTimestamps cur fin step = cur :: sampleTimestamps (cur + step) fin step := by
  rw [sampleTimestamps]
  simp [h1, h2]

theorem sampleTimestamps_nil {cur fin step : ℚ} (h : ¬(0 < step ∧ cur ≤ fin)) :
    sampleTimestamps cur fin step = [] := by
  rw [sampleTimestamps]
  simp [h]

theorem sampleTimestamps_le (cur fin step : ℚ) :
    ∀ t ∈ sampleTimestamps cur fin step, t ≤ fin := by
  induction cur, fin, step using sampleTimestamps.induct with
  | case1 cur fin step h ih =>
    intro t ht
    rw [sampleTimestamps_cons h.1 h.2] at ht
    rcases List.mem_cons.mp ht with rfl | hmem
    · exact h.2
    · exact ih t hmem
  | case2 cur fin step h =>
    intro t ht
    rw [sampleTimestamps_nil h] at ht
    simp at ht

theorem sampleTimestamps_closed (cur fin step : ℚ) :
    sampleTimestamps cur fin step
      = (List.range (sampleTimestamps cur fin step).length).map
          (fun i : ℕ => cur + (i : ℚ) * step) := by
  induction cur, fin, step using sampleTimestamps.induct with
  | case1 cur fin step h ih =>
    have hf : ((fun i : ℕ => cur + (i : ℚ) * step) ∘ Nat.succ)
        = fun i : ℕ => (cur + step) + (i : ℚ) * step := by
      funext i
      simp only [Function.comp]
      push_cast
      ring
    rw [sampleTimestamps_cons h.1 h.2, List.length_cons, List.range_succ_eq_map,
      List.map_cons, List.map_map, hf]
    rw [show cur + ((0 : ℕ) : ℚ) * step = cur from by norm_num]
    exact congrArg (List.cons cur) ih
  | case2 cur fin step h =>
    rw [sampleTimestamps_nil h]
    simp

theorem sampleTimestamps_maximal (cur fin step : ℚ) :
    0 < step → cur ≤ fin →
    fin < cur + (sampleTimestamps cur fin step).length * step := by
  induction cur, fin, step using sampleTimestamps.induct with
  | case1 cur fin step h ih =>
    intro h1 _
    rw [sampleTimestamps_cons h.1 h.2, List.length_cons]
    by_cases h3 : cur + step ≤ fin
    · have hrec := ih h.1 h3
      push_cast
      push_cast at hrec
      linarith
    · have hnil : sampleTimestamps (cur + step) fin step = [] :=
        sampleTimestamps_nil (by tauto)
      rw [hnil]
      simp only [List.length_nil, Nat.zero_add, Nat.cast_one, one_mul]
      linarith
  | case2 cur fin step h =>
    intro h1 h2
    exact absurd ⟨h1, h2⟩ h

theorem sampleTimestamps_example :
    sampleTimestamps 0 5 (1/2) = [0, 1/2, 1, 3/2, 2, 5/2, 3, 7/2, 4, 9/2, 5] := by
  rw [sampleTimestamps_cons (by norm_num) (by norm_num)]
  rw [sampleTimestamps_cons (by norm_num) (by norm_num)]
  rw [sampleTimestamps_cons (by norm_num) (by norm_num)]
  rw [sampleTimestamps_cons (by norm_num) (by norm_num)]
  rw [sampleTimestamps_cons (by norm_num) (by norm_num)]
  rw [sampleTimestamps_cons (by norm_num) (by norm_num)]
  rw [sampleTimestamps_cons (by norm_num) (by norm_num)]
  rw [sampleTimestamps_cons (by norm_num) (by norm_num)]
  rw [sampleTimestamps_cons (by norm_num) (by norm_num)]
  rw [sampleTimestamps_cons (by norm_num) (by norm_num)]
  rw [sampleTimestamps_cons (by norm_num) (by norm_num)]
  rw [sampleTimestamps_nil (by norm_num)]
  norm_num

theorem sampleFrames_cons (paint : ℚ → String) (v : VideoState) {cur fin : ℚ}
    (h : cur ≤ fin) :
    sampleFrames paint v cur fin
      = ((sampleFrames paint ⟨min cur v.duration, v.duration⟩ (cur + 1/2) fin).1,
         ⟨paint (min cur v.duration), cur⟩
           :: (sampleFrames paint ⟨min cur v.duration, v.duration⟩ (cur + 1/2) fin).2) := by
  rw [sampleFrames]
  simp [h, captureFrame]

theorem sampleFrames_nil (paint : ℚ → String) (v : VideoState) {cur fin : ℚ}
    (h : ¬cur ≤ fin) :
    sampleFrames paint v cur fin = (v, []) := by
  rw [sampleFrames]
  simp [h]

theorem sampleFrames_snd (paint : ℚ → String) (v : VideoState) (cur fin : ℚ) :
    (sampleFrames paint v cur fin).2
      = (sampleTimestamps cur fin (1/2)).map
          (fun t => ⟨paint (min t v.duration), t⟩) := by
  induction v, cur, fin using sampleFrames.induct paint with
  | case1 v cur fin h cap ih =>
    have hcap : cap = captureFrame paint v cur := rfl
    rw [hcap] at ih
    simp only [captureFrame] at ih
    rw [sampleFrames_cons paint v h, sampleTimestamps_cons (by norm_num) h, List.map_cons]
    dsimp only
    exact congrArg (List.cons _) ih
  | case2 v cur fin h =>
    rw [sampleFrames_nil paint v h, sampleTimestamps_nil (fun hc => h hc.2)]
    simp

theorem sampleFrames_fst (paint : ℚ → String) (v : VideoState) (cur fin : ℚ) :
    (sampleFrames paint v cur fin).1.duration = v.duration
      ∧ (sampleFrames paint v cur fin).1.currentTime
          = ((sampleTimestamps cur fin (1/2)).getLast?).elim v.currentTime
              (fun t => min t v.duration) := by
  induction v, cur, fin using sampleFrames.induct paint with
  | case1 v cur fin h cap ih =>
    have hcap : cap = captureFrame paint v cur := rfl
    rw [hcap] at ih
    simp only [captureFrame] at ih
    rw [sampleFrames_cons paint v h, sampleTimestamps_cons (by norm_num) h]
    dsimp only
    refine ⟨ih.1, ?_⟩
    rcases hS : sampleTimestamps (cur + 1/2) fin (1/2) with _ | ⟨s, ss⟩
    · rw [hS] at ih
      rw [ih.2]
      simp
    · rw [hS] at ih
      rw [List.getLast?_cons_cons, ih.2]
      rcases hgl : (s :: ss).getLast? with _ | t
      · exact absurd (List.getLast?_eq_none_iff.mp hgl) (by simp)
      · simp
  | case2 v cur fin h =>
    rw [sampleFrames_nil paint v h, sampleTimestamps_nil (fun hc => h hc.2)]
    simp

/-- C5: the sampler emits the arithmetic progression `start, start+step, …`
while the timestamp stays `≤ end` (every emitted timestamp is in range, the
loop only stops once the next timestamp would overshoot), the sampling loop
captures exactly one frame per timestamp, and the window `[0, 5]` with the
hard-coded step `0.5` yields exactly the 11 timestamps `0, 0.5, …, 5`. -/
theorem c5_sampling_coverage :
    (∀ cur fin step : ℚ, 0 < step →
      (∀ t ∈ sampleTimestamps cur fin step, t ≤ fin)
        ∧ sampleTimestamps cur fin step
            = (List.range (sampleTimestamps cur fin step).length).map
                (fun i : ℕ => cur + (i : ℚ) * step)
        ∧ (cur ≤ fin →
            fin < cur + (sampleTimestamps cur fin step).length * step))
    ∧ (∀ (paint : ℚ → String) (v : VideoState) (cur fin : ℚ),
        ((sampleFrames paint v cur fin).2).map Frame.timestamp
          = sampleTimestamps cur fin (1/2))
    ∧ sampleTimestamps 0 5 (1/2) = [0, 1/2, 1, 3/2, 2, 5/2, 3, 7/2, 4, 9/2, 5]
    ∧ (sampleTimestamps 0 5 (1/2)).length = 11 := by
  refine ⟨?_, ?_, sampleTimestamps_example, ?_⟩
  · intro cur fin step h1
    exact ⟨sampleTimestamps_le cur fin step, sampleTimestamps_closed cur fin step,
      sampleTimestamps_maximal cur fin step h1⟩
  · intro paint v cur fin
    rw [sampleFrames_snd, List.map_map]
    have hmap : (Frame.timestamp ∘ fun t => Frame.mk (paint (min t v.duration)) t)
        = fun t : ℚ => t := by
      funext t
      rfl
    rw [hmap]
    exact List.map_id (sampleTimestamps cur fin (1/2))
  · rw [sampleTimestamps_example]
    rfl

/-- C5 witness: the arithmetic-progression form instantiated at the
concrete window `[0, 5]` with step `1/2`. -/
theorem c5_sampling_coverage_witness :
    sampleTimestamps 0 5 (1/2)
      = (List.range (sampleTimestamps 0 5 (1/2)).length).map
          (fun i : ℕ => 0 + (i : ℚ) * (1/2)) :=
  (c5_sampling_coverage.1 0 5 (1/2) (by norm_num)).2.1

/-- C10: frame capture seeks the video to `min(t, duration)` and paints at
that clamped position, while the sampled frame records the unclamped
requested timestamp `t`; concretely, sampling `[3.5, 4]` of a 3-second
video yields frames painted at position 3 but labeled 3.5 and 4. -/
theorem c10_clamped_seek_unclamped_label :
    (∀ (paint : ℚ → String) (v : VideoState) (t : ℚ),
      ((captureFrame paint v t).1).currentTime = min t v.duration
        ∧ (captureFrame paint v t).2 = paint (min t v.duration))
    ∧ (∀ (paint : ℚ → String) (v : VideoState) (cur fin : ℚ),
        (sampleFrames paint v cur fin).2
          = (sampleTimestamps cur fin (1/2)).map
              (fun t => ⟨paint (min t v.duration), t⟩))
    ∧ (∀ paint : ℚ → String,
        (sampleFrames paint ⟨0, 3⟩ (7/2) 4).2 = [⟨paint 3, 7/2⟩, ⟨paint 3, 4⟩]) := by
  refine ⟨?_, sampleFrames_snd, ?_⟩
  · intro paint v t
    exact ⟨rfl, rfl⟩
  · intro paint
    rw [sampleFrames_snd]
    rw [sampleTimestamps_cons (by norm_num) (by norm_num)]
    rw [sampleTimestamps_cons (by norm_num) (by norm_num)]
    rw [sampleTimestamps_nil (by norm_num)]
    have h1 : min ((7:ℚ)/2) ((⟨0, 3⟩ : VideoState)).duration = 3 := by
      simp only []
      rw [min_eq_right]
      norm_num
    have h2 : min ((7:ℚ)/2 + 1/2) ((⟨0, 3⟩ : VideoState)).duration = 3 := by
      simp only []
      rw [min_eq_right]
      norm_num
    rw [List.map_cons, List.map_cons, List.map_nil, h1, h2]
    norm_num

theorem failedState_ne_doneState : failedState ≠ doneState := by
  intro h
  have hc := congrArg OCRProcessState.currentStep h
  exact absurd hc (by decide)

theorem startOCR_error_branch (paint : ℚ → String) (apiKey : String)
    (respond : List Frame → SvcOutcome) (tstart tend : ℚ) (st : AppState)
    (e : OcrError) (n : ℕ)
    (hD : dispatchLoop (processFrames apiKey respond)
        (sampleFrames paint st.video tstart tend).2 0 [] 0 = (Except.error e, n)) :
    startOCR paint apiKey respond (tstart, tend) st
      = ({ st with
           processState := failedState,
           video := (sampleFrames paint st.video tstart tend).1 },
         ⟨(sampleFrames paint st.video tstart tend).2, n⟩) := by
  rw [startOCR]
  dsimp only
  rw [hD]

theorem startOCR_ok_branch (paint : ℚ → String) (apiKey : String)
    (respond : List Frame → SvcOutcome) (tstart tend : ℚ) (st : AppState)
    (res : List SubtitleEntry) (n : ℕ)
    (hD : dispatchLoop (processFrames apiKey respond)
        (sampleFrames paint st.video tstart tend).2 0 [] 0 = (Except.ok res, n)) :
    startOCR paint apiKey respond (tstart, tend) st
      = ({ subtitles := reconcile res,
           processState := doneState,
           video := { (sampleFrames paint st.video tstart tend).1 with
                      currentTime := st.video.currentTime } },
         ⟨(sampleFrames paint st.video tstart tend).2, n⟩) := by
  rw [startOCR]
  dsimp only
  rw [hD]

theorem dispatchLoop_ok (svc : List Frame → Except OcrError (List SubtitleEntry) × Bool)
    (frames : List Frame) (i : ℕ) (acc : List SubtitleEntry) (sent : ℕ) :
    ∀ (res : List SubtitleEntry) (n : ℕ),
      dispatchLoop svc frames i acc sent = (Except.ok res, n) →
      ∀ j, i ≤ j → (j - i) % 10 = 0 → j < frames.length →
      ∃ out b, svc ((frames.drop j).take 10) = (Except.ok out, b) := by
  induction i, acc, sent using dispatchLoop.induct svc frames with
  | case1 i acc sent hlt e b hsvc =>
    intro res n hD
    rw [dispatchLoop, dif_pos hlt, hsvc] at hD
    simp at hD
  | case2 i acc sent hlt rs b hsvc ih =>
    intro res n hD j hij hmod hjlen
    rw [dispatchLoop, dif_pos hlt, hsvc] at hD
    dsimp only at hD
    by_cases hji : j = i
    · subst hji
      exact ⟨rs, b, hsvc⟩
    · exact ih res n hD j (by omega) (by omega) hjlen
  | case3 i acc sent hge =>
    intro res n hD j hij hmod hjlen
    omega

theorem dispatchLoop_error_of_batch_error
    (svc : List Frame → Except OcrError (List SubtitleEntry) × Bool)
    (frames : List Frame) (j : ℕ) (e : OcrError)
    (hj10 : j % 10 = 0) (hjlen : j < frames.length)
    (hfail : (svc ((frames.drop j).take 10)).1 = Except.error e) :
    ∃ e2 n, dispatchLoop svc frames 0 [] 0 = (Except.error e2, n) := by
  rcases hD : dispatchLoop svc frames 0 [] 0 with ⟨exc, n⟩
  cases exc with
  | ok res =>
    obtain ⟨out, b, hok⟩ :=
      dispatchLoop_ok svc frames 0 [] 0 res n hD j (by omega) (by omega) hjlen
    rw [hok] at hfail
    simp at hfail
  | error e2 => exact ⟨e2, n, rfl⟩

theorem processFrames_missingKey (respond : List Frame → SvcOutcome)
    (frames : List Frame) :
    processFrames "" respond frames = (Except.error OcrError.missingKey, false) := by
  rw [processFrames]
  simp

theorem processFrames_outcome (apiKey : String) (respond : List Frame → SvcOutcome)
    (frames : List Frame) (h : apiKey ≠ "") :
    processFrames apiKey respond frames
      = (match respond frames with
         | .throwsErr => (Except.error OcrError.service, true)
         | .emptyText => (Except.ok [], true)
         | .unparsable => (Except.error OcrError.malformed, true)
         | .nonArray => (Except.error OcrError.malformed, true)
         | .rows rs => (Except.ok ((rs.enum).map fun p =>
             ⟨mkSubId p.1, p.2.startTime, p.2.endTime, p.2.text⟩), true)) := by
  rw [processFrames, if_neg h]

theorem sampleFrames_run0 :
    sampleFrames paint0 st0.video 0 0 = (⟨0, 10⟩, [⟨"img", 0⟩]) := by
  have h1 : st0.video = (⟨7, 10⟩ : VideoState) := rfl
  rw [h1]
  rw [sampleFrames_cons paint0 ⟨7, 10⟩ (le_refl 0)]
  rw [sampleFrames_nil paint0 _ (by norm_num)]
  have hmin : min (0:ℚ) 10 = 0 := min_eq_left (by norm_num)
  simp [paint0, hmin]

theorem sampleFrames_run1 :
    sampleFrames paint0 st0.video 0 1
      = (⟨1, 10⟩, [⟨"img", 0⟩, ⟨"img", 1/2⟩, ⟨"img", 1⟩]) := by
  have h1 : st0.video = (⟨7, 10⟩ : VideoState) := rfl
  rw [h1]
  rw [sampleFrames_cons paint0 _ (by norm_num)]
  rw [sampleFrames_cons paint0 _ (by norm_num)]
  rw [sampleFrames_cons paint0 _ (by norm_num)]
  rw [sampleFrames_nil paint0 _ (by norm_num)]
  norm_num [paint0, min_def]

/-- C3: if the recognition service call fails for any batch, the whole run
aborts — the caller-visible subtitle list is left unchanged (partial
candidates are discarded) and the tracker ends in the failed state, never
in the done state. -/
theorem c3_abort_on_failure (paint : ℚ → String) (apiKey : String)
    (respond : List Frame → SvcOutcome) (tstart tend : ℚ) (st : AppState)
    (j : ℕ) (e : OcrError)
    (hj10 : j % 10 = 0)
    (hjlen : j < (sampleFrames paint st.video tstart tend).2.length)
    (hfail : (processFrames apiKey respond
        (((sampleFrames paint st.video tstart tend).2.drop j).take 10)).1
        = Except.error e) :
    (startOCR paint apiKey respond (tstart, tend) st).1.subtitles = st.subtitles
      ∧ (startOCR paint apiKey respond (tstart, tend) st).1.processState = failedState
      ∧ (startOCR paint apiKey respond (tstart, tend) st).1.processState ≠ doneState := by
  obtain ⟨e2, n, hD⟩ := dispatchLoop_error_of_batch_error
    (processFrames apiKey respond) (sampleFrames paint st.video tstart tend).2
    j e hj10 hjlen hfail
  rw [startOCR_error_branch paint apiKey respond tstart tend st e2 n hD]
  exact ⟨rfl, rfl, failedState_ne_doneState⟩

/-- C3 witness: a concrete one-frame run whose only batch throws. -/
theorem c3_abort_on_failure_witness :
    (startOCR paint0 "k" respondErr (0, 0) st0).1.subtitles = st0.subtitles
      ∧ (startOCR paint0 "k" respondErr (0, 0) st0).1.processState = failedState
      ∧ (startOCR paint0 "k" respondErr (0, 0) st0).1.processState ≠ doneState :=
  c3_abort_on_failure paint0 "k" respondErr 0 0 st0 0 OcrError.service (by decide)
    (by rw [show (sampleFrames paint0 st0.video 0 0).2 = [⟨"img", 0⟩] from
          by rw [sampleFrames_run0]]
        norm_num)
    (by rw [show (sampleFrames paint0 st0.video 0 0).2 = [⟨"img", 0⟩] from
          by rw [sampleFrames_run0]]
        rfl)

/-- C2 counterexample: a response whose `text` field is absent or empty is
a non-conforming payload (the declared response schema is a JSON array),
yet `response.text || '[]'` silently coerces it to the empty candidate
list: `processFrames` returns `ok []` and the whole run ends in the done
state with an empty subtitle list instead of failing. -/
theorem c2_counterexample :
    processFrames "k" respondEmpty [⟨"img", 0⟩] = (Except.ok [], true)
      ∧ (startOCR paint0 "k" respondEmpty (0, 0) st0).1.processState = doneState
      ∧ (startOCR paint0 "k" respondEmpty (0, 0) st0).1.subtitles = []
      ∧ (startOCR paint0 "k" respondEmpty (0, 0) st0).1.processState ≠ failedState := by
  have hD : dispatchLoop (processFrames "k" respondEmpty)
      (sampleFrames paint0 st0.video 0 0).2 0 [] 0 = (Except.ok [], 1) := by
    rw [show (sampleFrames paint0 st0.video 0 0).2 = [⟨"img", 0⟩] from
      by rw [sampleFrames_run0]]
    rw [dispatchLoop, dif_pos (by norm_num)]
    rw [show processFrames "k" respondEmpty ((([(⟨"img", 0⟩ : Frame)]).drop 0).take 10)
        = (Except.ok [], true) from rfl]
    dsimp only
    rw [dispatchLoop, dif_neg (by norm_num)]
    simp
  refine ⟨rfl, ?_, ?_, ?_⟩
  · rw [startOCR_ok_branch paint0 "k" respondEmpty 0 0 st0 [] 1 hD]
  · rw [startOCR_ok_branch paint0 "k" respondEmpty 0 0 st0 [] 1 hD]
    rfl
  · rw [startOCR_ok_branch paint0 "k" respondEmpty 0 0 st0 [] 1 hD]
    intro h
    exact failedState_ne_doneState h.symm

/-- C2 as amended: a response text that fails JSON parsing, or parses to a
non-array, is treated as a data error and the whole run fails with the
subtitle list unchanged; an absent or empty response text, however, is
replaced by the literal `"[]"` and silently becomes the empty candidate
list. -/
theorem c2_malformed_payload :
    (∀ (apiKey : String) (respond : List Frame → SvcOutcome) (fs : List Frame),
      apiKey ≠ "" →
      (respond fs = SvcOutcome.unparsable ∨ respond fs = SvcOutcome.nonArray) →
      (processFrames apiKey respond fs).1 = Except.error OcrError.malformed)
    ∧ (∀ (paint : ℚ → String) (apiKey : String) (respond : List Frame → SvcOutcome)
        (tstart tend : ℚ) (st : AppState) (j : ℕ),
      apiKey ≠ "" → j % 10 = 0 →
      j < (sampleFrames paint st.video tstart tend).2.length →
      (respond (((sampleFrames paint st.video tstart tend).2.drop j).take 10)
          = SvcOutcome.unparsable
        ∨ respond (((sampleFrames paint st.video tstart tend).2.drop j).take 10)
          = SvcOutcome.nonArray) →
      (startOCR paint apiKey respond (tstart, tend) st).1.processState = failedState
        ∧ (startOCR paint apiKey respond (tstart, tend) st).1.subtitles = st.subtitles)
    ∧ (∀ (apiKey : String) (respond : List Frame → SvcOutcome) (fs : List Frame),
      apiKey ≠ "" → respond fs = SvcOutcome.emptyText →
      processFrames apiKey respond fs = (Except.ok [], true)) := by
  have hmal : ∀ (apiKey : String) (respond : List Frame → SvcOutcome) (fs : List Frame),
      apiKey ≠ "" →
      (respond fs = SvcOutcome.unparsable ∨ respond fs = SvcOutcome.nonArray) →
      (processFrames apiKey respond fs).1 = Except.error OcrError.malformed := by
    intro apiKey respond fs hk h2
    rw [processFrames_outcome apiKey respond fs hk]
    rcases h2 with h2 | h2 <;> rw [h2]
  refine ⟨hmal, ?_, ?_⟩
  · intro paint apiKey respond tstart tend st j hk hj10 hjlen h2
    obtain ⟨e2, n, hD⟩ := dispatchLoop_error_of_batch_error
      (processFrames apiKey respond) (sampleFrames paint st.video tstart tend).2
      j OcrError.malformed hj10 hjlen (hmal apiKey respond _ hk h2)
    rw [startOCR_error_branch paint apiKey respond tstart tend st e2 n hD]
    exact ⟨rfl, rfl⟩
  · intro apiKey respond fs hk h2
    rw [processFrames_outcome apiKey respond fs hk, h2]

/-- C2 witness: the data-error rule applied to a concrete unparsable
response. -/
theorem c2_malformed_payload_witness :
    (processFrames "k" respondUnparsable [⟨"img", 0⟩]).1
      = Except.error OcrError.malformed :=
  c2_malformed_payload.1 "k" respondUnparsable [⟨"img", 0⟩] (by decide) (Or.inl rfl)

/-- C8 counterexample: with the API key missing, the run does fail and no
request is ever sent, but a frame is sampled first — the key check lives
inside `processFrames`, which only runs after the whole sampling loop, so
the claim's "fails before any frames are sampled" is false. -/
theorem c8_counterexample :
    (startOCR paint0 "" respondRows0 (0, 0) st0).2.framesSampled = [⟨"img", 0⟩]
      ∧ (startOCR paint0 "" respondRows0 (0, 0) st0).2.framesSampled ≠ []
      ∧ (startOCR paint0 "" respondRows0 (0, 0) st0).1.processState = failedState
      ∧ (startOCR paint0 "" respondRows0 (0, 0) st0).2.requestsSent = 0 := by
  have hD : dispatchLoop (processFrames "" respondRows0)
      (sampleFrames paint0 st0.video 0 0).2 0 [] 0
      = (Except.error OcrError.missingKey, 0) := by
    rw [show (sampleFrames paint0 st0.video 0 0).2 = [⟨"img", 0⟩] from
      by rw [sampleFrames_run0]]
    rw [dispatchLoop, dif_pos (by norm_num)]
    rw [processFrames_missingKey]
    norm_num
  refine ⟨?_, ?_, ?_, ?_⟩ <;>
    rw [startOCR_error_branch paint0 "" respondRows0 0 0 st0 OcrError.missingKey 0 hD]
  · show (sampleFrames paint0 st0.video 0 0).2 = [⟨"img", 0⟩]
    rw [sampleFrames_run0]
  · show (sampleFrames paint0 st0.video 0 0).2 ≠ []
    rw [sampleFrames_run0]
    simp

/-- C8 as amended: a missing API key is fatal, but the failure is raised at
the first batch dispatch, after the whole sampling pass: whenever the time
window is nonempty the run ends failed with the subtitle list unchanged and
zero requests sent, yet with a nonempty list of sampled frames. -/
theorem c8_missing_key (paint : ℚ → String) (respond : List Frame → SvcOutcome)
    (tstart tend : ℚ) (st : AppState) (h : tstart ≤ tend) :
    (startOCR paint "" respond (tstart, tend) st).1.processState = failedState
      ∧ (startOCR paint "" respond (tstart, tend) st).1.subtitles = st.subtitles
      ∧ (startOCR paint "" respond (tstart, tend) st).2.requestsSent = 0
      ∧ (startOCR paint "" respond (tstart, tend) st).2.framesSampled ≠ [] := by
  have hne : (sampleFrames paint st.video tstart tend).2 ≠ [] := by
    rw [sampleFrames_cons paint st.video h]
    simp
  have hlen : 0 < (sampleFrames paint st.video tstart tend).2.length :=
    List.length_pos.mpr hne
  have hD : dispatchLoop (processFrames "" respond)
      (sampleFrames paint st.video tstart tend).2 0 [] 0
      = (Except.error OcrError.missingKey, 0) := by
    rw [dispatchLoop, dif_pos hlen]
    rw [processFrames_missingKey]
    norm_num
  rw [startOCR_error_branch paint "" respond tstart tend st OcrError.missingKey 0 hD]
  exact ⟨rfl, rfl, rfl, hne⟩

/-- C8 witness: the amended missing-key behaviour on a concrete one-frame
window. -/
theorem c8_missing_key_witness :
    (startOCR paint0 "" respondRows0 (0, 0) st0).1.processState = failedState
      ∧ (startOCR paint0 "" respondRows0 (0, 0) st0).1.subtitles = st0.subtitles
      ∧ (startOCR paint0 "" respondRows0 (0, 0) st0).2.requestsSent = 0
      ∧ (startOCR paint0 "" respondRows0 (0, 0) st0).2.framesSampled ≠ [] :=
  c8_missing_key paint0 respondRows0 0 0 st0 (le_refl 0)

/-- C9 counterexample: a failing run ends with the video left at the last
sampled seek position (1s), not at the recorded pre-run position (7s) —
the catch block never restores `currentTime`, so the claim's "when the run
ends, restores the playback position" fails for failed runs. -/
theorem c9_counterexample :
    st0.video.currentTime = 7
      ∧ (startOCR paint0 "k" respondErr (0, 1) st0).1.processState = failedState
      ∧ (startOCR paint0 "k" respondErr (0, 1) st0).1.video.currentTime = 1
      ∧ (startOCR paint0 "k" respondErr (0, 1) st0).1.video.currentTime
          ≠ st0.video.currentTime := by
  have hD : dispatchLoop (processFrames "k" respondErr)
      (sampleFrames paint0 st0.video 0 1).2 0 [] 0
      = (Except.error OcrError.service, 1) := by
    rw [show (sampleFrames paint0 st0.video 0 1).2
        = [⟨"img", 0⟩, ⟨"img", 1/2⟩, ⟨"img", 1⟩] from by rw [sampleFrames_run1]]
    rw [dispatchLoop, dif_pos (by norm_num)]
    rw [show processFrames "k" respondErr
        ((([⟨"img", 0⟩, ⟨"img", (1:ℚ)/2⟩, ⟨"img", 1⟩] : List Frame).drop 0).take 10)
        = (Except.error OcrError.service, true) from rfl]
    norm_num
  refine ⟨rfl, ?_, ?_, ?_⟩ <;>
    rw [startOCR_error_branch paint0 "k" respondErr 0 1 st0 OcrError.service 1 hD]
  · show (sampleFrames paint0 st0.video 0 1).1.currentTime = 1
    rw [sampleFrames_run1]
  · show (sampleFrames paint0 st0.video 0 1).1.currentTime ≠ st0.video.currentTime
    rw [sampleFrames_run1]
    norm_num [st0]

/-- C9 as amended: the pre-run playback position is recorded and restored
when the run completes successfully; when the run fails, the position is
left wherever the sampling loop last seeked. -/
theorem c9_restore_position :
    (∀ (paint : ℚ → String) (apiKey : String) (respond : List Frame → SvcOutcome)
        (tstart tend : ℚ) (st : AppState) (res : List SubtitleEntry) (n : ℕ),
      dispatchLoop (processFrames apiKey respond)
          (sampleFrames paint st.video tstart tend).2 0 [] 0 = (Except.ok res, n) →
      (startOCR paint apiKey respond (tstart, tend) st).1.video.currentTime
        = st.video.currentTime)
    ∧ (∀ (paint : ℚ → String) (apiKey : String) (respond : List Frame → SvcOutcome)
        (tstart tend : ℚ) (st : AppState) (e : OcrError) (n : ℕ),
      dispatchLoop (processFrames apiKey respond)
          (sampleFrames paint st.video tstart tend).2 0 [] 0 = (Except.error e, n) →
      (startOCR paint apiKey respond (tstart, tend) st).1.video.currentTime
        = (sampleFrames paint st.video tstart tend).1.currentTime) := by
  constructor
  · intro paint apiKey respond tstart tend st res n hD
    rw [startOCR_ok_branch paint apiKey respond tstart tend st res n hD]
  · intro paint apiKey respond tstart tend st e n hD
    rw [startOCR_error_branch paint apiKey respond tstart tend st e n hD]

/-- C9 witness: a concrete successful run restores the recorded 7s
position. -/
theorem c9_restore_position_witness :
    (startOCR paint0 "k" respondRows0 (0, 0) st0).1.video.currentTime
      = st0.video.currentTime :=
  c9_restore_position.1 paint0 "k" respondRows0 0 0 st0 [] 1 (by
    rw [show (sampleFrames paint0 st0.video 0 0).2 = [⟨"img", 0⟩] from
      by rw [sampleFrames_run0]]
    rw [dispatchLoop, dif_pos (by norm_num)]
    rw [show processFrames "k" respondRows0 ((([(⟨"img", 0⟩ : Frame)]).drop 0).take 10)
        = (Except.ok [], true) from rfl]
    dsimp only
    rw [dispatchLoop, dif_neg (by norm_num)]
    simp)

end VideoOCR
